import Mathlib

/-!
Verification development for the real-time auction core of the
`ad_arch_simulate` repository (Python).  The Python services are embedded
shallowly:

* monetary amounts (`float` values that the code always produces via
  `round(x, n)` on decimal literals) are modelled as exact rationals `ℚ`;
  Python's `round` (banker's rounding, round-half-to-even) is modelled
  exactly on `ℚ` by `pyRound`/`round4`;
* in-memory dictionaries become association lists (`List (String × β)`)
  looked up on the first matching key, or total counter functions where the
  code only ever reads them through `.get(key, 0)` chains;
* network calls become explicit parameters carrying the peer's outcome
  (`Except`/`Option` values), and the wall clock becomes an explicit `now`
  argument;
* `datetime` timestamp fields, which no claim mentions, are omitted.

Sources embedded below: `src/shared/models.py`, `src/shared/utils.py`
(`APIClient._request_with_retry`, `CircuitBreaker`),
`src/server/ad-exchange/main.py` (`AdExchangeEngine`), and
`src/server/dsp/main.py` (`DSPBiddingEngine`, `handle_win_notice`).
-/

namespace AdArch

/-! ## Python `round` on rationals

Python's builtin `round(x, 4)` rounds to the nearest multiple of `1/10000`,
ties going to the even multiple (banker's rounding).  `pyRound x` is the
integer Python's `round(x)` returns for a rational `x`. -/

/-- Round a rational to the nearest integer, ties to the even integer
(Python's `round`). -/
def pyRound (x : ℚ) : ℤ :=
  let f : ℤ := ⌊x⌋
  let r : ℚ := x - f
  if r < 1/2 then f
  else if 1/2 < r then f + 1
  else if Even f then f else f + 1

/-- Python's `round(x, 4)`: round to the nearest multiple of `1/10000`. -/
def round4 (x : ℚ) : ℚ := (pyRound (x * 10000) : ℚ) / 10000

theorem pyRound_intCast (n : ℤ) : pyRound (n : ℚ) = n := by
  simp [pyRound]

/-- `round4` is the identity on 4-decimal prices. -/
theorem round4_of_mul_int (x : ℚ) (n : ℤ) (h : x * 10000 = (n : ℚ)) :
    round4 x = x := by
  have h10 : (10000 : ℚ) ≠ 0 := by norm_num
  unfold round4
  rw [h, pyRound_intCast]
  field_simp [← h]

/-- If `round4` fixes `x` then `x * 10000` is an integer. -/
theorem mul_int_of_round4 (x : ℚ) (h : round4 x = x) :
    x * 10000 = ((pyRound (x * 10000) : ℤ) : ℚ) := by
  unfold round4 at h
  rw [← h]
  field_simp
  rw [pyRound_intCast]

/-! ## Data model (`src/shared/models.py`)

Only the fields the auction/bidding core reads are carried; each structure
keeps the Python field names.  The pydantic validators that matter to the
claims are captured as `Valid` predicates. -/

/-- `AdSlot` (models.py): ad-slot information; `floor_price` defaults 0. -/
structure AdSlot where
  id : String
  width : Nat
  height : Nat
  position : String
  floor_price : ℚ
deriving Repr, DecidableEq

/-- `Device` (models.py); the bidding core only reads `type`. -/
structure Device where
  type : String
  os : String
  browser : String
  ip : String
deriving Repr, DecidableEq

/-- `Geo` (models.py); the bidding core only reads `country`. -/
structure Geo where
  country : String
  region : String
  city : String
deriving Repr, DecidableEq

/-- `BidRequest` (models.py), minus the timestamp. -/
structure BidRequest where
  id : String
  user_id : String
  ad_slot : AdSlot
  device : Device
  geo : Geo
deriving Repr, DecidableEq

/-- `BidResponse` (models.py).  `creative` is a JSON object; it is kept as
an association list of string fields. -/
structure BidResponse where
  request_id : String
  price : ℚ
  creative : List (String × String)
  campaign_id : String
  dsp_id : String
deriving Repr, DecidableEq

/-- The pydantic validators on `BidResponse`: `price > 0`,
`round(price, 4) == price` (`validate_price_precision`), and a non-empty
creative title (`validate_creative`).  Every `BidResponse` the exchange
receives has passed this validation. -/
def BidResponse.Valid (b : BidResponse) : Prop :=
  0 < b.price ∧ round4 b.price = b.price ∧
    ∃ t, b.creative.lookup "title" = some t ∧ t ≠ ""

instance (b : BidResponse) : Decidable b.Valid := by
  unfold BidResponse.Valid
  have h : (∃ t, b.creative.lookup "title" = some t ∧ t ≠ "") ↔
      (b.creative.lookup "title" ≠ none ∧ b.creative.lookup "title" ≠ some "") := by
    cases hl : b.creative.lookup "title" with
    | none => simp
    | some t => simp
  rw [h]
  exact inferInstance

/-- `AuctionResult` (models.py), minus the timestamp. -/
structure AuctionResult where
  auction_id : String
  request_id : String
  winning_bid : Option BidResponse
  all_bids : List BidResponse
  auction_price : ℚ
deriving Repr, DecidableEq

/-! ## Ad-exchange bid evaluation (`src/server/ad-exchange/main.py`)

`AdExchangeEngine._evaluate_bids` filters the received bids by the floor
price, sorts the survivors by price descending with Python's `sorted`
(which is documented to be stable: bids of equal price keep arrival
order), takes the head as winner and prices the auction. -/

/-- Configuration of `AdExchangeEngine`; `second_price_auction` is `True`
in `__init__`, kept as a parameter as the pricing branch reads it. -/
structure AdExchangeEngine where
  second_price_auction : Bool
deriving Repr, DecidableEq

/-- Insert a bid into a price-descending list, after every strictly
higher-priced bid and before the first bid of lower or equal price. -/
def insertBidDesc (b : BidResponse) : List BidResponse → List BidResponse
  | [] => [b]
  | y :: ys => if b.price < y.price then y :: insertBidDesc b ys else b :: y :: ys

/-- `sorted(valid_bids, key=lambda b: b.price, reverse=True)`:
the stable descending sort by price.  Stability makes the result the unique
price-descending permutation in which equal-priced bids keep their arrival
order, which is what this insertion sort computes. -/
def sortBidsDesc : List BidResponse → List BidResponse
  | [] => []
  | b :: bs => insertBidDesc b (sortBidsDesc bs)

/-- `AdExchangeEngine._evaluate_bids`: returns the winning bid (if any) and
the auction (clearing) price.  Mirrors the Python line by line: empty check,
floor filter, empty check, stable descending sort, head as winner,
second-price branch (`second_price_auction and len(sorted_bids) > 1`,
rendered as a match on the tail), clamp `min(price, winning_bid.price)`,
and `round(price, 4)`. -/
def evaluate_bids (eng : AdExchangeEngine) (bid_responses : List BidResponse)
    (bid_request : BidRequest) : Option BidResponse × ℚ :=
  if bid_responses = [] then (none, 0)
  else
    let valid_bids := bid_responses.filter
      (fun b => bid_request.ad_slot.floor_price ≤ b.price)
    if valid_bids = [] then (none, 0)
    else
      match sortBidsDesc valid_bids with
      | [] => (none, 0)
      | winning_bid :: rest =>
        let auction_price :=
          match rest with
          | second :: _ =>
            if eng.second_price_auction then second.price + 1/100
            else winning_bid.price
          | [] => winning_bid.price
        (some winning_bid, round4 (min auction_price winning_bid.price))

/-! ### Properties of the stable descending sort -/

theorem insertBidDesc_perm (b : BidResponse) (l : List BidResponse) :
    List.Perm (insertBidDesc b l) (b :: l) := by
  induction l with
  | nil => simp [insertBidDesc]
  | cons y ys ih =>
    unfold insertBidDesc
    by_cases hp : b.price < y.price
    · simp only [hp, if_true]
      exact (ih.cons y).trans (List.Perm.swap b y ys)
    · simp [hp]

theorem sortBidsDesc_perm (l : List BidResponse) :
    List.Perm (sortBidsDesc l) l := by
  induction l with
  | nil => simp [sortBidsDesc]
  | cons b bs ih =>
    exact (insertBidDesc_perm b (sortBidsDesc bs)).trans (ih.cons b)

theorem insertBidDesc_pairwise (b : BidResponse) (l : List BidResponse)
    (h : l.Pairwise (fun a c => c.price ≤ a.price)) :
    (insertBidDesc b l).Pairwise (fun a c => c.price ≤ a.price) := by
  induction l with
  | nil => simp [insertBidDesc]
  | cons y ys ih =>
    rw [List.pairwise_cons] at h
    unfold insertBidDesc
    by_cases hp : b.price < y.price
    · simp only [hp, if_true]
      rw [List.pairwise_cons]
      constructor
      · intro c hc
        have hmem := (insertBidDesc_perm b ys).mem_iff.mp hc
        rcases List.mem_cons.mp hmem with hcb | hcys
        · exact hcb ▸ le_of_lt hp
        · exact h.1 c hcys
      · exact ih h.2
    · simp only [hp, if_false]
      rw [List.pairwise_cons]
      refine ⟨?_, List.pairwise_cons.mpr h⟩
      intro c hc
      rcases List.mem_cons.mp hc with hcy | hcys
      · exact hcy ▸ le_of_not_lt hp
      · exact le_trans (h.1 c hcys) (le_of_not_lt hp)

theorem sortBidsDesc_pairwise (l : List BidResponse) :
    (sortBidsDesc l).Pairwise (fun a c => c.price ≤ a.price) := by
  induction l with
  | nil => simp [sortBidsDesc]
  | cons b bs ih => exact insertBidDesc_pairwise b _ ih

/-- The head of the sorted list carries the maximal price. -/
theorem sortBidsDesc_head_max (l : List BidResponse) (w : BidResponse)
    (rest : List BidResponse) (h : sortBidsDesc l = w :: rest) :
    ∀ x ∈ l, x.price ≤ w.price := by
  intro x hx
  have hmem : x ∈ sortBidsDesc l := (sortBidsDesc_perm l).symm.subset hx
  rw [h] at hmem
  rcases List.mem_cons.mp hmem with hw | hr
  · exact hw ▸ le_refl _
  · have hp := sortBidsDesc_pairwise l
    rw [h, List.pairwise_cons] at hp
    exact hp.1 x hr

/-- Stability: the head of the sorted list is the first bid, in arrival
order, whose price attains the maximum (first-received wins ties). -/
theorem sortBidsDesc_head_find (l : List BidResponse) (w : BidResponse)
    (rest : List BidResponse) (h : sortBidsDesc l = w :: rest) :
    l.find? (fun x => w.price ≤ x.price) = some w := by
  induction l generalizing w rest with
  | nil => simp [sortBidsDesc] at h
  | cons a tl ih =>
    rw [sortBidsDesc] at h
    cases htl : sortBidsDesc tl with
    | nil =>
      rw [htl] at h
      unfold insertBidDesc at h
      cases h
      simp
    | cons y ys =>
      rw [htl] at h
      unfold insertBidDesc at h
      by_cases hp : a.price < y.price
      · rw [if_pos hp] at h
        obtain ⟨hw, hrest⟩ := List.cons.inj h
        subst hw
        rw [List.find?_cons_of_neg, ih y ys htl]
        simp only [decide_eq_true_eq]
        exact not_le_of_lt hp
      · rw [if_neg hp] at h
        obtain ⟨hw, hrest⟩ := List.cons.inj h
        subst hw
        rw [List.find?_cons_of_pos]
        simp

/-! ### Unfolding lemmas for `evaluate_bids` -/

theorem sortBidsDesc_ne_nil_filter {bids : List BidResponse} {fl : BidResponse → Bool}
    {w : BidResponse} {rest : List BidResponse}
    (h : sortBidsDesc (bids.filter fl) = w :: rest) :
    bids ≠ [] ∧ bids.filter fl ≠ [] := by
  have hvne : bids.filter fl ≠ [] := by
    intro he
    rw [he] at h
    simp [sortBidsDesc] at h
  exact ⟨fun he => hvne (by rw [he]; rfl), hvne⟩

theorem evaluate_bids_eq_single (eng : AdExchangeEngine) (bids : List BidResponse)
    (req : BidRequest) (w : BidResponse)
    (h : sortBidsDesc (bids.filter
        (fun b => req.ad_slot.floor_price ≤ b.price)) = [w]) :
    evaluate_bids eng bids req = (some w, round4 w.price) := by
  obtain ⟨hbne, hvne⟩ := sortBidsDesc_ne_nil_filter h
  simp only [evaluate_bids, if_neg hbne, if_neg hvne, h, min_self]

theorem evaluate_bids_eq_multi (eng : AdExchangeEngine) (bids : List BidResponse)
    (req : BidRequest) (w b2 : BidResponse) (rest2 : List BidResponse)
    (h : sortBidsDesc (bids.filter
        (fun b => req.ad_slot.floor_price ≤ b.price)) = w :: b2 :: rest2) :
    evaluate_bids eng bids req =
      (some w, round4 (min (if eng.second_price_auction then b2.price + 1/100
        else w.price) w.price)) := by
  obtain ⟨hbne, hvne⟩ := sortBidsDesc_ne_nil_filter h
  simp only [evaluate_bids, if_neg hbne, if_neg hvne, h]

/-! ### `round4` fixed points -/

theorem round4_min (a b : ℚ) (ha : round4 a = a) (hb : round4 b = b) :
    round4 (min a b) = min a b := by
  rcases min_cases a b with ⟨h, _⟩ | ⟨h, _⟩ <;> rw [h] <;> assumption

theorem round4_add_cent (p : ℚ) (h : round4 p = p) :
    round4 (p + 1/100) = p + 1/100 := by
  apply round4_of_mul_int _ (pyRound (p * 10000) + 100)
  push_cast
  rw [← mul_int_of_round4 p h]
  ring

theorem evaluate_bids_fst (eng : AdExchangeEngine) (bids : List BidResponse)
    (req : BidRequest) (w : BidResponse) (rest : List BidResponse)
    (h : sortBidsDesc (bids.filter
        (fun b => req.ad_slot.floor_price ≤ b.price)) = w :: rest) :
    (evaluate_bids eng bids req).1 = some w := by
  cases rest with
  | nil => rw [evaluate_bids_eq_single eng bids req w h]
  | cons b2 rest2 => rw [evaluate_bids_eq_multi eng bids req w b2 rest2 h]

/-- If evaluation produced a winner, the winner heads the sorted list of
floor-clearing bids. -/
theorem winner_sort_of_evaluate (eng : AdExchangeEngine)
    (bids : List BidResponse) (req : BidRequest) (w : BidResponse) (p : ℚ)
    (h : evaluate_bids eng bids req = (some w, p)) :
    ∃ rest, sortBidsDesc (bids.filter
      (fun b => req.ad_slot.floor_price ≤ b.price)) = w :: rest := by
  by_cases hbne : bids = []
  · subst hbne
    simp [evaluate_bids] at h
  · by_cases hFne : bids.filter (fun b => req.ad_slot.floor_price ≤ b.price) = []
    · simp only [evaluate_bids, if_neg hbne, if_pos hFne] at h
      nomatch h
    · cases hs : sortBidsDesc (bids.filter
          (fun b => req.ad_slot.floor_price ≤ b.price)) with
      | nil =>
        have hperm := sortBidsDesc_perm (bids.filter
          (fun b => req.ad_slot.floor_price ≤ b.price))
        rw [hs] at hperm
        exact absurd hperm.symm.eq_nil hFne
      | cons w2 rest =>
        have hfst := evaluate_bids_fst eng bids req w2 rest hs
        rw [h] at hfst
        obtain rfl : w2 = w := by
          injection hfst with h1
          exact h1.symm
        exact ⟨rest, rfl⟩

/-- **C1.**  With every received bid valid (pydantic-validated) and at or
above the floor price: the winner `w` has the highest price; in
second-price mode with at least two bids the clearing price is
`min(p₁, p₂ + 0.01)` where `p₂` (the price of the second element of the
sorted list) is the second-highest price; in first-price mode, or with
exactly one bid, the clearing price is `p₁`; and the clearing price never
exceeds the winning bid's price.  The `round(·, 4)` in the code is the
identity here because validated bid prices are 4-decimal quantities. -/
theorem evaluate_bids_clearing_price_spec (eng : AdExchangeEngine)
    (bids : List BidResponse) (req : BidRequest) (w : BidResponse)
    (rest : List BidResponse)
    (hval : ∀ b ∈ bids, b.Valid)
    (hfloor : ∀ b ∈ bids, req.ad_slot.floor_price ≤ b.price)
    (hsort : sortBidsDesc bids = w :: rest) :
    (∀ b ∈ bids, b.price ≤ w.price)
    ∧ List.Perm bids (w :: rest)
    ∧ (evaluate_bids eng bids req).1 = some w
    ∧ (rest = [] → (evaluate_bids eng bids req).2 = w.price)
    ∧ (∀ b2 rest2, rest = b2 :: rest2 →
        (∀ b ∈ rest2, b.price ≤ b2.price)
        ∧ (evaluate_bids eng bids req).2 =
            (if eng.second_price_auction = true then min w.price (b2.price + 1/100)
             else w.price))
    ∧ (evaluate_bids eng bids req).2 ≤ w.price := by
  have hfilter : bids.filter (fun b => req.ad_slot.floor_price ≤ b.price) = bids :=
    List.filter_eq_self.mpr (fun b hb => by simpa using hfloor b hb)
  have hperm : List.Perm bids (w :: rest) := by
    have h := sortBidsDesc_perm bids
    rw [hsort] at h
    exact h.symm
  have hw_mem : w ∈ bids := hperm.symm.subset (List.mem_cons_self w rest)
  have hmax := sortBidsDesc_head_max bids w rest hsort
  have hw4 : round4 w.price = w.price := (hval w hw_mem).2.1
  cases rest with
  | nil =>
    have heval := evaluate_bids_eq_single eng bids req w (by rw [hfilter]; exact hsort)
    refine ⟨hmax, hperm, ?_, ?_, ?_, ?_⟩
    · rw [heval]
    · intro _
      rw [heval]
      exact hw4
    · intro b2 rest2 hc
      nomatch hc
    · rw [heval]
      exact le_of_eq hw4
  | cons b2 rest2 =>
    have hb2_mem : b2 ∈ bids := hperm.symm.subset (by simp)
    have hb24 : round4 b2.price = b2.price := (hval b2 hb2_mem).2.1
    have heval := evaluate_bids_eq_multi eng bids req w b2 rest2
      (by rw [hfilter]; exact hsort)
    have hprice : (evaluate_bids eng bids req).2 =
        (if eng.second_price_auction = true then min w.price (b2.price + 1/100)
         else w.price) := by
      rw [heval]
      by_cases hsp : eng.second_price_auction = true
      · rw [if_pos hsp, if_pos hsp]
        show round4 (min (b2.price + 1/100) w.price) = _
        rw [min_comm]
        exact round4_min _ _ hw4 (round4_add_cent _ hb24)
      · rw [if_neg hsp, if_neg hsp]
        show round4 (min w.price w.price) = _
        rw [min_self]
        exact hw4
    refine ⟨hmax, hperm, ?_, ?_, ?_, ?_⟩
    · rw [heval]
    · intro hc
      nomatch hc
    · intro b2x rest2x hc
      obtain ⟨hb2e, hre⟩ := List.cons.inj hc
      subst hb2e
      subst hre
      refine ⟨?_, hprice⟩
      have hp := sortBidsDesc_pairwise bids
      rw [hsort, List.pairwise_cons] at hp
      have hp2 := hp.2
      rw [List.pairwise_cons] at hp2
      exact hp2.1
    · rw [hprice]
      by_cases hsp : eng.second_price_auction = true
      · rw [if_pos hsp]
        exact min_le_left _ _
      · rw [if_neg hsp]

/-- **C4.**  Bids below the floor price are discarded before ranking:
evaluation of the received list equals evaluation of the floor-filtered
list (so below-floor bids never win and never affect the clearing price);
any winner comes from the received bids and meets the floor; if no bid
meets the floor price the result is no winner with clearing price `0.0`. -/
theorem evaluate_bids_floor_spec (eng : AdExchangeEngine)
    (bids : List BidResponse) (req : BidRequest) :
    evaluate_bids eng bids req
      = evaluate_bids eng
          (bids.filter (fun b => req.ad_slot.floor_price ≤ b.price)) req
    ∧ (∀ w p, evaluate_bids eng bids req = (some w, p) →
        w ∈ bids ∧ req.ad_slot.floor_price ≤ w.price)
    ∧ ((∀ b ∈ bids, b.price < req.ad_slot.floor_price) →
        evaluate_bids eng bids req = (none, 0)) := by
  refine ⟨?_, ?_, ?_⟩
  · by_cases hbne : bids = []
    · subst hbne
      simp [evaluate_bids]
    · by_cases hFne : bids.filter (fun b => req.ad_slot.floor_price ≤ b.price) = []
      · rw [hFne]
        simp only [evaluate_bids, if_neg hbne, if_pos hFne]
        simp [evaluate_bids]
      · have hidem : (bids.filter (fun b => req.ad_slot.floor_price ≤ b.price)).filter
            (fun b => req.ad_slot.floor_price ≤ b.price)
            = bids.filter (fun b => req.ad_slot.floor_price ≤ b.price) :=
          List.filter_eq_self.mpr (fun b hb => (List.mem_filter.mp hb).2)
        simp only [evaluate_bids, if_neg hbne, if_neg hFne, hidem]
  · intro w p h
    obtain ⟨rest, hs⟩ := winner_sort_of_evaluate eng bids req w p h
    have hperm := sortBidsDesc_perm (bids.filter
      (fun b => req.ad_slot.floor_price ≤ b.price))
    rw [hs] at hperm
    have hw_mem : w ∈ bids.filter (fun b => req.ad_slot.floor_price ≤ b.price) :=
      hperm.subset (List.mem_cons_self w rest)
    have := List.mem_filter.mp hw_mem
    exact ⟨this.1, by simpa using this.2⟩
  · intro hall
    have hF : bids.filter (fun b => req.ad_slot.floor_price ≤ b.price) = [] := by
      rw [List.filter_eq_nil_iff]
      intro b hb
      simpa using not_le_of_lt (hall b hb)
    by_cases hbne : bids = []
    · subst hbne
      simp [evaluate_bids]
    · simp only [evaluate_bids, if_neg hbne, if_pos hF]

/-- **C7.**  The ranking is deterministic in arrival order: among the
floor-clearing bids, every price is bounded by the winner's, and the winner
is the *first* bid in arrival order whose price attains that maximum
(`find?` scans left to right), so first-received wins ties.  `evaluate_bids`
is a pure function, so identical input lists give identical results. -/
theorem evaluate_bids_tie_break_spec (eng : AdExchangeEngine)
    (bids : List BidResponse) (req : BidRequest) (w : BidResponse) (p : ℚ)
    (h : evaluate_bids eng bids req = (some w, p)) :
    (∀ b ∈ bids.filter (fun b => req.ad_slot.floor_price ≤ b.price),
      b.price ≤ w.price)
    ∧ (bids.filter (fun b => req.ad_slot.floor_price ≤ b.price)).find?
        (fun b => w.price ≤ b.price) = some w := by
  obtain ⟨rest, hs⟩ := winner_sort_of_evaluate eng bids req w p h
  exact ⟨sortBidsDesc_head_max _ w rest hs, sortBidsDesc_head_find _ w rest hs⟩

/-! ### Concrete sample data (mirrors the spec's end-to-end scenarios) -/

def sampleSlot : AdSlot := ⟨"slot-1", 300, 250, "top", 1/2⟩

def sampleReq : BidRequest :=
  ⟨"req-1", "user-1", sampleSlot, ⟨"mobile", "ios", "safari", "1.2.3.4"⟩,
    ⟨"US", "CA", "SF"⟩⟩

def sampleBid (p : ℚ) (c : String) : BidResponse :=
  ⟨"req-1", p, [("title", "Ad")], c, "dsp-001"⟩

theorem sampleBid_valid (p : ℚ) (c : String) (n : ℤ) (hp : 0 < p)
    (hn : p * 10000 = (n : ℚ)) : (sampleBid p c).Valid :=
  ⟨hp, round4_of_mul_int _ n hn, "Ad", rfl, by decide⟩

/-- Witness for C1: floor 0.50, bids {0.80, 0.60}, second-price mode. -/
theorem evaluate_bids_clearing_price_spec_witness :
    (evaluate_bids ⟨true⟩ [sampleBid (4/5) "c1", sampleBid (3/5) "c2"] sampleReq).1
        = some (sampleBid (4/5) "c1")
    ∧ (evaluate_bids ⟨true⟩ [sampleBid (4/5) "c1", sampleBid (3/5) "c2"] sampleReq).2
        ≤ (sampleBid (4/5) "c1").price := by
  have hval : ∀ b ∈ [sampleBid (4/5) "c1", sampleBid (3/5) "c2"], b.Valid := by
    intro b hb
    rcases List.mem_cons.mp hb with rfl | hb
    · exact sampleBid_valid _ _ 8000 (by norm_num) (by norm_num)
    · rcases List.mem_cons.mp hb with rfl | hb
      · exact sampleBid_valid _ _ 6000 (by norm_num) (by norm_num)
      · nomatch hb
  have hfloor : ∀ b ∈ [sampleBid (4/5) "c1", sampleBid (3/5) "c2"],
      sampleReq.ad_slot.floor_price ≤ b.price := by
    intro b hb
    rcases List.mem_cons.mp hb with rfl | hb
    · show (1:ℚ)/2 ≤ 4/5
      norm_num
    · rcases List.mem_cons.mp hb with rfl | hb
      · show (1:ℚ)/2 ≤ 3/5
        norm_num
      · nomatch hb
  have hsort : sortBidsDesc [sampleBid (4/5) "c1", sampleBid (3/5) "c2"]
      = [sampleBid (4/5) "c1", sampleBid (3/5) "c2"] := by
    simp only [sortBidsDesc, insertBidDesc]
    rw [if_neg]
    show ¬ ((4:ℚ)/5 < 3/5)
    norm_num
  have h := evaluate_bids_clearing_price_spec ⟨true⟩
    [sampleBid (4/5) "c1", sampleBid (3/5) "c2"] sampleReq
    (sampleBid (4/5) "c1") [sampleBid (3/5) "c2"] hval hfloor hsort
  exact ⟨h.2.2.1, h.2.2.2.2.2⟩

/-- Witness for C4: floor 0.50, one bid {0.30} below floor — no winner,
clearing price 0.0 (the spec's second end-to-end scenario). -/
theorem evaluate_bids_floor_spec_witness :
    evaluate_bids ⟨true⟩ [sampleBid (3/10) "c1"] sampleReq = (none, 0) := by
  have h := evaluate_bids_floor_spec ⟨true⟩ [sampleBid (3/10) "c1"] sampleReq
  apply h.2.2
  intro b hb
  rcases List.mem_cons.mp hb with rfl | hb
  · show (3:ℚ)/10 < 1/2
    norm_num
  · nomatch hb

/-- Witness for C7: two equal top bids of 0.80; the first-received one is
found first in arrival order. -/
theorem evaluate_bids_tie_break_spec_witness :
    ([sampleBid (4/5) "c1", sampleBid (4/5) "c2"].filter
        (fun b => sampleReq.ad_slot.floor_price ≤ b.price)).find?
        (fun b => (sampleBid (4/5) "c1").price ≤ b.price)
      = some (sampleBid (4/5) "c1") := by
  have hfilter : [sampleBid (4/5) "c1", sampleBid (4/5) "c2"].filter
      (fun b => sampleReq.ad_slot.floor_price ≤ b.price)
      = [sampleBid (4/5) "c1", sampleBid (4/5) "c2"] := by
    apply List.filter_eq_self.mpr
    intro b hb
    rcases List.mem_cons.mp hb with rfl | hb
    · simp only [decide_eq_true_eq]
      show (1:ℚ)/2 ≤ 4/5
      norm_num
    · rcases List.mem_cons.mp hb with rfl | hb
      · simp only [decide_eq_true_eq]
        show (1:ℚ)/2 ≤ 4/5
        norm_num
      · nomatch hb
  have hsort : sortBidsDesc ([sampleBid (4/5) "c1", sampleBid (4/5) "c2"].filter
      (fun b => sampleReq.ad_slot.floor_price ≤ b.price))
      = sampleBid (4/5) "c1" :: [sampleBid (4/5) "c2"] := by
    rw [hfilter]
    simp only [sortBidsDesc, insertBidDesc]
    rw [if_neg]
    show ¬ ((4:ℚ)/5 < 4/5)
    norm_num
  have heval := evaluate_bids_eq_multi ⟨true⟩
    [sampleBid (4/5) "c1", sampleBid (4/5) "c2"] sampleReq
    (sampleBid (4/5) "c1") (sampleBid (4/5) "c2") [] hsort
  have hmin : min ((sampleBid (4/5) "c2").price + 1/100)
      (sampleBid (4/5) "c1").price = (4:ℚ)/5 := by
    show min ((4:ℚ)/5 + 1/100) (4/5) = 4/5
    norm_num
  have hp : evaluate_bids ⟨true⟩ [sampleBid (4/5) "c1", sampleBid (4/5) "c2"]
      sampleReq = (some (sampleBid (4/5) "c1"), 4/5) := by
    rw [heval]
    show (some (sampleBid (4/5) "c1"),
      round4 (min ((sampleBid (4/5) "c2").price + 1/100)
        (sampleBid (4/5) "c1").price)) = _
    rw [hmin, round4_of_mul_int ((4:ℚ)/5) 8000 (by norm_num)]
  exact (evaluate_bids_tie_break_spec ⟨true⟩
    [sampleBid (4/5) "c1", sampleBid (4/5) "c2"] sampleReq
    (sampleBid (4/5) "c1") (4/5) hp).2

/-! ## Bid collection and the auction boundary
(`AdExchangeEngine._request_bid_from_dsp`, `_collect_bids`,
`conduct_auction`)

A DSP call's outcome is passed in explicitly: `Except.ok b` for a validated
`BidResponse`, `Except.error e` for a timeout, transport error, or a
response that failed `BidResponse.model_validate`.  `_request_bid_from_dsp`
wraps the call in `try/except` and returns `None` on any exception.
`_collect_bids` gathers the per-DSP results (with `return_exceptions=True`)
and keeps only the `BidResponse` values; if the global `asyncio.wait_for`
deadline fires, the collected list is empty.  `conduct_auction` always
builds an `AuctionResult` from whatever survived. -/

/-- `AdExchangeEngine._request_bid_from_dsp`: any bidder error becomes
`none` ("no bid"). -/
def request_bid_from_dsp (outcome : Except String BidResponse) :
    Option BidResponse :=
  match outcome with
  | .ok b => some b
  | .error _ => none

/-- `AdExchangeEngine._collect_bids`: `timedOut` is the global
`asyncio.TimeoutError` case (empty list); otherwise keep the successful
responses in arrival order. -/
def collect_bids (timedOut : Bool) (outcomes : List (Except String BidResponse)) :
    List BidResponse :=
  if timedOut then []
  else (outcomes.map request_bid_from_dsp).filterMap id

/-- `AdExchangeEngine.conduct_auction`, restricted to its return value (the
auction-history insert, stats update and win notice are side effects the
claims do not touch; `auction_id` is the generated UUID). -/
def conduct_auction (eng : AdExchangeEngine) (auction_id : String)
    (bid_request : BidRequest) (timedOut : Bool)
    (outcomes : List (Except String BidResponse)) : AuctionResult :=
  let bid_responses := collect_bids timedOut outcomes
  let result := evaluate_bids eng bid_responses bid_request
  { auction_id := auction_id
    request_id := bid_request.id
    winning_bid := result.1
    all_bids := bid_responses
    auction_price := result.2 }

theorem collect_bids_filter_isOk (timedOut : Bool)
    (outcomes : List (Except String BidResponse)) :
    collect_bids timedOut outcomes
      = collect_bids timedOut (outcomes.filter (fun o => o.isOk)) := by
  unfold collect_bids
  by_cases ht : timedOut = true
  · simp [ht]
  · rw [Bool.not_eq_true] at ht
    simp only [ht, Bool.false_eq_true, if_false]
    induction outcomes with
    | nil => rfl
    | cons o os ih =>
      cases o with
      | ok b => simpa [request_bid_from_dsp, Except.isOk, Except.toBool] using ih
      | error e => simpa [request_bid_from_dsp, Except.isOk, Except.toBool] using ih

/-- If evaluation produced no winner, the clearing price is `0`. -/
theorem evaluate_bids_none_price (eng : AdExchangeEngine)
    (bids : List BidResponse) (req : BidRequest)
    (h : (evaluate_bids eng bids req).1 = none) :
    (evaluate_bids eng bids req).2 = 0 := by
  by_cases hbne : bids = []
  · subst hbne
    rfl
  · by_cases hFne : bids.filter (fun b => req.ad_slot.floor_price ≤ b.price) = []
    · simp only [evaluate_bids, if_neg hbne, if_pos hFne]
    · cases hs : sortBidsDesc (bids.filter
          (fun b => req.ad_slot.floor_price ≤ b.price)) with
      | nil =>
        have hperm := sortBidsDesc_perm (bids.filter
          (fun b => req.ad_slot.floor_price ≤ b.price))
        rw [hs] at hperm
        exact absurd hperm.symm.eq_nil hFne
      | cons w rest =>
        have hfst := evaluate_bids_fst eng bids req w rest hs
        rw [h] at hfst
        nomatch hfst

/-- **C8.**  Bidder failures are absorbed at the collection boundary:
`conduct_auction` is a total function into `AuctionResult`; erroring
bidders are equivalent to absent bidders; with every bidder failing the
result has no winner and clearing price `0`; and a winnerless result always
carries clearing price `0`. -/
theorem conduct_auction_absorbs_failures (eng : AdExchangeEngine)
    (auction_id : String) (req : BidRequest) (timedOut : Bool)
    (outcomes : List (Except String BidResponse)) :
    (conduct_auction eng auction_id req timedOut outcomes).request_id = req.id
    ∧ conduct_auction eng auction_id req timedOut outcomes
        = conduct_auction eng auction_id req timedOut
            (outcomes.filter (fun o => o.isOk))
    ∧ ((∀ o ∈ outcomes, o.isOk = false) →
        (conduct_auction eng auction_id req timedOut outcomes).winning_bid = none
        ∧ (conduct_auction eng auction_id req timedOut outcomes).auction_price = 0)
    ∧ ((conduct_auction eng auction_id req timedOut outcomes).winning_bid = none →
        (conduct_auction eng auction_id req timedOut outcomes).auction_price = 0) :=
  by
  refine ⟨rfl, ?_, ?_, ?_⟩
  · unfold conduct_auction
    rw [collect_bids_filter_isOk]
  · intro hall
    have hfe : outcomes.filter (fun o => o.isOk) = [] := by
      rw [List.filter_eq_nil_iff]
      intro o ho
      simp [hall o ho]
    have hc : collect_bids timedOut outcomes = [] := by
      rw [collect_bids_filter_isOk, hfe]
      unfold collect_bids
      by_cases ht : timedOut = true <;> simp [ht]
    unfold conduct_auction
    rw [hc]
    exact ⟨rfl, rfl⟩
  · intro h
    exact evaluate_bids_none_price eng _ req h

/-- Witness for C8: a single bidder that errors out still yields a
well-formed result with no winner and clearing price `0`. -/
theorem conduct_auction_absorbs_failures_witness :
    (conduct_auction ⟨true⟩ "a-1" sampleReq false [Except.error "timeout"]).winning_bid
        = none
    ∧ (conduct_auction ⟨true⟩ "a-1" sampleReq false [Except.error "timeout"]).auction_price
        = 0 :=
  (conduct_auction_absorbs_failures ⟨true⟩ "a-1" sampleReq false
    [Except.error "timeout"]).2.2.1 (by decide)

/-! ## DSP bidding engine (`src/server/dsp/main.py`)

The DSP's module-level dictionaries `campaigns_db` and `campaign_stats`
become association lists (first matching key, like a dict); the
`frequency_caps` nesting `user_id -> campaign_id -> date -> count` is only
ever read through `.get(..., {}) / .get(today, 0)` chains, so its
observable state is the total counter function
`user → campaign → date → ℕ` (missing keys read 0).  "Today" is the
`datetime.now().date().isoformat()` string, passed explicitly. -/

/-- `CampaignStatus` (models.py). -/
inductive CampaignStatus where
  | active
  | paused
  | completed
  | draft
deriving Repr, DecidableEq

/-- The `targeting` dict of a campaign.  A key that is absent from the dict
(`"device_types" in targeting` false) is `none` — meaning no constraint. -/
structure Targeting where
  device_types : Option (List String)
  countries : Option (List String)
  segments : Option (List String)
  interests : Option (List String)
deriving Repr, DecidableEq

/-- `Campaign` (models.py), minus timestamps. -/
structure Campaign where
  id : String
  name : String
  advertiser_id : String
  budget : ℚ
  spent : ℚ
  targeting : Targeting
  creative : List (String × String)
  status : CampaignStatus
deriving Repr, DecidableEq

/-- `UserProfile` (models.py), minus the demographics dict and timestamp. -/
structure UserProfile where
  user_id : String
  interests : List String
  behaviors : List String
  segments : List String
deriving Repr, DecidableEq

/-- `CampaignStats` (models.py), minus the timestamp. -/
structure CampaignStats where
  campaign_id : String
  impressions : Nat
  clicks : Nat
  conversions : Nat
  spend : ℚ
  revenue : ℚ
  ctr : ℚ
  cpc : ℚ
deriving Repr, DecidableEq

/-- `CampaignStats(campaign_id=cid)`: all counters default to zero. -/
def CampaignStats.init (cid : String) : CampaignStats :=
  ⟨cid, 0, 0, 0, 0, 0, 0, 0⟩

/-- `stats.impressions += 1; stats.spend += price`. -/
def incStats (price : ℚ) (st : CampaignStats) : CampaignStats :=
  { st with impressions := st.impressions + 1, spend := st.spend + price }

/-- In-memory DSP module state: `campaigns_db`, `frequency_caps`,
`campaign_stats`. -/
structure DSPState where
  campaigns : List (String × Campaign)
  frequency_caps : String → String → String → Nat
  campaign_stats : List (String × CampaignStats)

/-- `DSPBiddingEngine.__init__` constants. -/
structure DSPBiddingEngine where
  dsp_id : String
  min_bid : ℚ
  max_bid : ℚ
  default_frequency_cap : Nat
deriving Repr, DecidableEq

/-- The engine the DSP service constructs:
`dsp_id="dsp-001"`, `min_bid=0.01`, `max_bid=10.0`, cap 5. -/
def dspEngine : DSPBiddingEngine := ⟨"dsp-001", 1/100, 10, 5⟩

/-- Update the value at the first occurrence of key `k` (dict mutation
`d[k] = f(d[k])` for a present key). -/
def updateFirst {β : Type} (k : String) (f : β → β) :
    List (String × β) → List (String × β)
  | [] => []
  | (k2, v) :: rest =>
    if k2 = k then (k2, f v) :: rest else (k2, v) :: updateFirst k f rest

/-- `DSPBiddingEngine._matches_targeting`: each targeting dimension is
checked only when present; segment/interest overlap additionally only when
a profile was found. -/
def matches_targeting (campaign : Campaign) (bid_request : BidRequest)
    (user_profile : Option UserProfile) : Bool :=
  (match campaign.targeting.device_types with
   | some l => l.contains bid_request.device.type
   | none => true) &&
  (match campaign.targeting.countries with
   | some l => l.contains bid_request.geo.country
   | none => true) &&
  (match user_profile, campaign.targeting.segments with
   | some prof, some segs => segs.any (fun s => prof.segments.contains s)
   | _, _ => true) &&
  (match user_profile, campaign.targeting.interests with
   | some prof, some ints => ints.any (fun i => prof.interests.contains i)
   | _, _ => true)

/-- `DSPBiddingEngine._find_matching_campaigns`: skip non-active campaigns,
skip `spent >= budget`, keep targeting matches, in `campaigns_db.values()`
(insertion) order. -/
def find_matching_campaigns (s : DSPState) (bid_request : BidRequest)
    (user_profile : Option UserProfile) : List Campaign :=
  s.campaigns.filterMap (fun p =>
    let campaign := p.2
    if campaign.status ≠ CampaignStatus.active then none
    else if campaign.budget ≤ campaign.spent then none
    else if matches_targeting campaign bid_request user_profile then some campaign
    else none)

/-- `DSPBiddingEngine._select_best_campaign`: Python's
`max(campaigns, key=lambda c: c.budget - c.spent)` — the first campaign
with maximal remaining budget (later ones replace only on strictly
greater key). -/
def select_best_campaign : List Campaign → Option Campaign
  | [] => none
  | c :: cs =>
    some (cs.foldl (fun best x =>
      if best.budget - best.spent < x.budget - x.spent then x else best) c)

/-- `DSPBiddingEngine._check_constraints`: budget not exhausted and the
(user, campaign, today) frequency counter strictly below the cap. -/
def check_constraints (eng : DSPBiddingEngine) (s : DSPState)
    (campaign : Campaign) (user_id : String) (today : String) : Bool :=
  if campaign.budget ≤ campaign.spent then false
  else
    let daily_impressions := s.frequency_caps user_id campaign.id today
    decide (daily_impressions < eng.default_frequency_cap)

/-- `DSPBiddingEngine._calculate_bid_price`: base 0.5, floor uplift
`max(base, floor × 1.1)`, profile-quality factor
`1 + (#interests + #segments) × 0.1`, device multiplier
(mobile 1.2 / desktop 1.0 / tablet 0.9, default 1.0), clamp into
`[min_bid, max_bid]`, `round(·, 4)`. -/
def calculate_bid_price (eng : DSPBiddingEngine) (bid_request : BidRequest)
    (user_profile : Option UserProfile) : ℚ :=
  let base_price : ℚ := 1/2
  let base_price :=
    if 0 < bid_request.ad_slot.floor_price then
      max base_price (bid_request.ad_slot.floor_price * (11/10))
    else base_price
  let base_price :=
    match user_profile with
    | some prof =>
      base_price * (1 + ((prof.interests.length + prof.segments.length : ℕ) : ℚ) * (1/10))
    | none => base_price
  let device_multiplier : ℚ :=
    if bid_request.device.type = "mobile" then 6/5
    else if bid_request.device.type = "desktop" then 1
    else if bid_request.device.type = "tablet" then 9/10
    else 1
  let base_price := base_price * device_multiplier
  let bid_price := max eng.min_bid (min base_price eng.max_bid)
  round4 bid_price

/-- `DSPBiddingEngine.evaluate_bid_request` (the pure bidding decision; the
DMP profile lookup result is the `user_profile` parameter). -/
def evaluate_bid_request (eng : DSPBiddingEngine) (s : DSPState)
    (bid_request : BidRequest) (user_profile : Option UserProfile)
    (today : String) : Option BidResponse :=
  let matching_campaigns := find_matching_campaigns s bid_request user_profile
  if matching_campaigns = [] then none
  else
    match select_best_campaign matching_campaigns with
    | none => none
    | some selected_campaign =>
      if check_constraints eng s selected_campaign bid_request.user_id today then
        some { request_id := bid_request.id
               price := calculate_bid_price eng bid_request user_profile
               creative := selected_campaign.creative
               campaign_id := selected_campaign.id
               dsp_id := eng.dsp_id }
      else none

/-- `DSPBiddingEngine.record_win`: add the price to the campaign's spend
when the campaign exists (no budget check), always bump the
(user, campaign, today) frequency counter, and create-or-increment the
campaign's stats entry. -/
def record_win (s : DSPState) (campaign_id user_id : String) (price : ℚ)
    (today : String) : DSPState :=
  let campaigns :=
    if (s.campaigns.lookup campaign_id).isSome then
      updateFirst campaign_id (fun c => { c with spent := c.spent + price })
        s.campaigns
    else s.campaigns
  let frequency_caps := fun u c d =>
    if u = user_id ∧ c = campaign_id ∧ d = today then s.frequency_caps u c d + 1
    else s.frequency_caps u c d
  let campaign_stats :=
    match s.campaign_stats.lookup campaign_id with
    | some _ => updateFirst campaign_id (incStats price) s.campaign_stats
    | none => s.campaign_stats ++ [(campaign_id, incStats price (CampaignStats.init campaign_id))]
  ⟨campaigns, frequency_caps, campaign_stats⟩

/-- `handle_win_notice` (`POST /win-notice`): reads `campaign_id`,
`user_id` and `price` (default `0.0`) from the JSON body — `request_id` is
ignored —, answers 400 when `not all([campaign_id, user_id])` (absent or
empty string), otherwise applies `record_win` and returns success.  The
`Bool` is `True` for the success response. -/
def handle_win_notice (s : DSPState) (campaign_id user_id : Option String)
    (price : Option ℚ) (today : String) : DSPState × Bool :=
  match campaign_id, user_id with
  | some cid, some uid =>
    if cid ≠ "" ∧ uid ≠ "" then (record_win s cid uid (price.getD 0) today, true)
    else (s, false)
  | _, _ => (s, false)

/-! ### Dictionary helper lemmas -/

theorem lookup_updateFirst {β : Type} (k : String) (f : β → β)
    (l : List (String × β)) :
    (updateFirst k f l).lookup k = (l.lookup k).map f := by
  induction l with
  | nil => rfl
  | cons p rest ih =>
    obtain ⟨k2, v⟩ := p
    by_cases hk : k2 = k
    · subst hk
      simp [updateFirst, List.lookup]
    · have hne : (k == k2) = false := beq_eq_false_iff_ne.mpr (Ne.symm hk)
      simp only [updateFirst, if_neg hk, List.lookup, hne]
      exact ih

theorem lookup_append_of_none {β : Type} (k : String) (v : β)
    (l : List (String × β)) (h : l.lookup k = none) :
    (l ++ [(k, v)]).lookup k = some v := by
  induction l with
  | nil => simp [List.lookup]
  | cons p rest ih =>
    obtain ⟨k2, v2⟩ := p
    by_cases hk : k == k2
    · simp [List.lookup, hk] at h
    · simp only [List.cons_append, List.lookup, Bool.not_eq_true] at h ⊢
      rw [Bool.not_eq_true] at hk
      rw [hk] at h ⊢
      exact ih h

/-! ### C2: campaign spend versus budget under `record_win` -/

/-- A campaign one impression away from exhausting its budget. -/
def budgetCampaign : Campaign :=
  ⟨"camp-001", "Mobile Gaming Campaign", "adv-001", 1000, 999,
    ⟨none, none, none, none⟩, [("title", "Play the Best Mobile Game!")],
    CampaignStatus.active⟩

def budgetState : DSPState :=
  ⟨[("camp-001", budgetCampaign)], fun _ _ _ => 0,
    [("camp-001", CampaignStats.init "camp-001")]⟩

/-- **C2 (failing input).**  `record_win` adds the winning price to `spent`
with no budget check: from `spent = 999 < budget = 1000`, a win of `1.5`
leaves `spent = 1000.5 > budget`, the state the `Campaign` model validator
(`spent_cannot_exceed_budget`) rejects.  The claim's required
reject-and-log never happens. -/
theorem record_win_overspends_budget :
    budgetCampaign.spent < budgetCampaign.budget
    ∧ ((record_win budgetState "camp-001" "user-1" (3/2)
          "2026-10-12").campaigns.lookup "camp-001").map Campaign.spent
        = some (2001/2)
    ∧ budgetCampaign.budget < 2001/2 := by
  refine ⟨by norm_num [budgetCampaign], ?_, by norm_num [budgetCampaign]⟩
  have hsome : (budgetState.campaigns.lookup "camp-001").isSome = true := rfl
  have hcamp : (record_win budgetState "camp-001" "user-1" (3/2)
      "2026-10-12").campaigns
      = updateFirst "camp-001" (fun c => { c with spent := c.spent + 3/2 })
          budgetState.campaigns := by
    unfold record_win
    rw [if_pos hsome]
  rw [hcamp, lookup_updateFirst]
  show some (budgetCampaign.spent + 3/2) = some (2001/2)
  norm_num [budgetCampaign]

/-! ### C3: the frequency counter and the cap -/

/-- One win-notice application for (camp-001, user-1) on a fixed day. -/
def winNoticeStep (s : DSPState) : DSPState :=
  (handle_win_notice s (some "camp-001") (some "user-1") (some 1)
    "2026-10-12").1

/-- **C3 (counterexample).**  Win notices increment the counter
unconditionally: six of them drive the (user, campaign, day) counter to 6,
strictly above the default cap of 5 — refuting "the counter never exceeds
the configured frequency cap after any sequence of bid evaluations and
win-notice applications". -/
theorem frequency_counter_exceeds_cap_cex :
    dspEngine.default_frequency_cap <
      (winNoticeStep^[6] budgetState).frequency_caps "user-1" "camp-001"
        "2026-10-12" := by
  decide

/-- **C3 (amended).**  The bid-time half of the claim: whenever
`evaluate_bid_request` returns a bid, the (user, campaign, today) counter
of the bid's campaign is strictly below the cap — equivalently, at or above
the cap the engine never bids on that campaign, regardless of targeting or
budget fit. -/
theorem evaluate_bid_respects_frequency_cap (eng : DSPBiddingEngine)
    (s : DSPState) (req : BidRequest) (prof : Option UserProfile)
    (today : String) (b : BidResponse)
    (h : evaluate_bid_request eng s req prof today = some b) :
    s.frequency_caps req.user_id b.campaign_id today
      < eng.default_frequency_cap := by
  unfold evaluate_bid_request at h
  by_cases hm : find_matching_campaigns s req prof = []
  · rw [if_pos hm] at h
    nomatch h
  · rw [if_neg hm] at h
    cases hsel : select_best_campaign (find_matching_campaigns s req prof) with
    | none =>
      rw [hsel] at h
      nomatch h
    | some selected =>
      rw [hsel] at h
      dsimp only [] at h
      by_cases hcc : check_constraints eng s selected req.user_id today = true
      · rw [if_pos hcc] at h
        have hb : b.campaign_id = selected.id := by
          injection h with h1
          rw [← h1]
        rw [hb]
        unfold check_constraints at hcc
        by_cases hbud : selected.budget ≤ selected.spent
        · rw [if_pos hbud] at hcc
          nomatch hcc
        · rw [if_neg hbud] at hcc
          simpa using hcc
      · rw [if_neg hcc] at h
        nomatch h

/-- An unconstrained active campaign with open budget. -/
def openCampaign : Campaign :=
  ⟨"camp-010", "Open Campaign", "adv-010", 10, 0, ⟨none, none, none, none⟩,
    [("title", "Open Ad")], CampaignStatus.active⟩

def openState : DSPState := ⟨[("camp-010", openCampaign)], fun _ _ _ => 0, []⟩

def desktopReq : BidRequest :=
  ⟨"req-9", "user-9", ⟨"slot-9", 300, 250, "top", 0⟩,
    ⟨"desktop", "linux", "firefox", "5.6.7.8"⟩, ⟨"US", "CA", "SF"⟩⟩

def desktopBid : BidResponse :=
  ⟨"req-9", 1/2, [("title", "Open Ad")], "camp-010", "dsp-001"⟩

theorem calculate_bid_price_desktop :
    calculate_bid_price dspEngine desktopReq none = 1/2 := by
  simp only [calculate_bid_price]
  rw [if_neg (by norm_num [desktopReq] :
    ¬ (0 < desktopReq.ad_slot.floor_price))]
  rw [if_neg (by decide : ¬ (desktopReq.device.type = "mobile"))]
  rw [if_pos (by decide : desktopReq.device.type = "desktop")]
  rw [show max dspEngine.min_bid (min ((1:ℚ)/2 * 1) dspEngine.max_bid) = 1/2
    by norm_num [dspEngine]]
  exact round4_of_mul_int _ 5000 (by norm_num)

theorem evaluate_bid_request_desktop :
    evaluate_bid_request dspEngine openState desktopReq none "2026-10-12"
      = some desktopBid := by
  have hm : find_matching_campaigns openState desktopReq none
      = [openCampaign] := by
    unfold find_matching_campaigns openState
    show List.filterMap _ [("camp-010", openCampaign)] = _
    rw [List.filterMap_cons, List.filterMap_nil]
    rw [if_neg (by decide :
      ¬ (openCampaign.status ≠ CampaignStatus.active))]
    rw [if_neg (by norm_num [openCampaign] :
      ¬ (openCampaign.budget ≤ openCampaign.spent))]
    rw [if_pos (by decide :
      matches_targeting openCampaign desktopReq none = true)]
  have hcc : check_constraints dspEngine openState openCampaign
      desktopReq.user_id "2026-10-12" = true := by
    unfold check_constraints
    rw [if_neg (by norm_num [openCampaign] :
      ¬ (openCampaign.budget ≤ openCampaign.spent))]
    decide
  unfold evaluate_bid_request
  rw [hm]
  rw [if_neg (by simp : ¬ (([openCampaign] : List Campaign) = []))]
  rw [show select_best_campaign [openCampaign] = some openCampaign from rfl]
  dsimp only []
  rw [if_pos hcc, calculate_bid_price_desktop]
  rfl

/-- Witness for the amended C3: a state in which the engine does bid, and
the corresponding counter is indeed below the cap. -/
theorem evaluate_bid_respects_frequency_cap_witness :
    evaluate_bid_request dspEngine openState desktopReq none "2026-10-12"
        = some desktopBid
    ∧ openState.frequency_caps desktopReq.user_id desktopBid.campaign_id
        "2026-10-12" < dspEngine.default_frequency_cap :=
  ⟨evaluate_bid_request_desktop,
    evaluate_bid_respects_frequency_cap dspEngine openState desktopReq none
      "2026-10-12" desktopBid evaluate_bid_request_desktop⟩

/-! ### C9: win notices are applied cumulatively, not idempotently -/

/-- **C9 (counterexample).**  Applying the identical win notice twice does
not leave the state of one application: the frequency counter reaches 2
instead of 1 (and the spend doubles), because `handle_win_notice` ignores
`request_id` and performs no deduplication. -/
theorem handle_win_notice_not_idempotent_cex :
    (winNoticeStep budgetState).frequency_caps "user-1" "camp-001"
        "2026-10-12" = 1
    ∧ (winNoticeStep (winNoticeStep budgetState)).frequency_caps "user-1"
        "camp-001" "2026-10-12" = 2
    ∧ winNoticeStep (winNoticeStep budgetState) ≠ winNoticeStep budgetState := by
  refine ⟨by decide, by decide, fun h => ?_⟩
  exact absurd
    (congrArg (fun st : DSPState =>
      st.frequency_caps "user-1" "camp-001" "2026-10-12") h)
    (by decide)

/-- **C9 (amended).**  For an existing campaign and a well-formed notice,
applying the same win notice twice succeeds twice and applies the
increments twice: the campaign's spend grows by `2 × price` and the
(user, campaign, day) counter by 2 — the handler deduplicates nothing
(`request_id` is not even read), so application is cumulative rather than
idempotent. -/
theorem handle_win_notice_double_increment (s : DSPState) (cid uid : String)
    (c : Campaign) (price : ℚ) (today : String)
    (hcid : cid ≠ "") (huid : uid ≠ "")
    (hc : s.campaigns.lookup cid = some c) :
    (handle_win_notice s (some cid) (some uid) (some price) today).2 = true
    ∧ (handle_win_notice
        (handle_win_notice s (some cid) (some uid) (some price) today).1
        (some cid) (some uid) (some price) today).2 = true
    ∧ ((handle_win_notice s (some cid) (some uid) (some price)
          today).1.campaigns.lookup cid)
        = some { c with spent := c.spent + price }
    ∧ ((handle_win_notice
          (handle_win_notice s (some cid) (some uid) (some price) today).1
          (some cid) (some uid) (some price) today).1.campaigns.lookup cid)
        = some { c with spent := c.spent + price + price }
    ∧ (handle_win_notice s (some cid) (some uid) (some price)
          today).1.frequency_caps uid cid today
        = s.frequency_caps uid cid today + 1
    ∧ (handle_win_notice
          (handle_win_notice s (some cid) (some uid) (some price) today).1
          (some cid) (some uid) (some price) today).1.frequency_caps uid cid
          today
        = s.frequency_caps uid cid today + 2 := by
  have hstep : ∀ s2 : DSPState,
      handle_win_notice s2 (some cid) (some uid) (some price) today
        = (record_win s2 cid uid price today, true) := by
    intro s2
    unfold handle_win_notice
    dsimp only []
    rw [if_pos ⟨hcid, huid⟩]
    rfl
  have hcamp : ∀ (s2 : DSPState) (c2 : Campaign),
      s2.campaigns.lookup cid = some c2 →
      (record_win s2 cid uid price today).campaigns.lookup cid
        = some { c2 with spent := c2.spent + price } := by
    intro s2 c2 hc2
    unfold record_win
    rw [if_pos (by rw [hc2]; rfl)]
    rw [lookup_updateFirst, hc2]
    rfl
  have hfreq : ∀ s2 : DSPState,
      (record_win s2 cid uid price today).frequency_caps uid cid today
        = s2.frequency_caps uid cid today + 1 := by
    intro s2
    show (if uid = uid ∧ cid = cid ∧ today = today then _ else _) = _
    rw [if_pos ⟨rfl, rfl, rfl⟩]
  have h1 := hstep s
  have hc1 := hcamp s c hc
  refine ⟨by rw [h1], ?_, ?_, ?_, ?_, ?_⟩
  · rw [h1, hstep]
  · rw [h1]
    exact hc1
  · rw [h1, hstep]
    show (record_win (record_win s cid uid price today) cid uid price
      today).campaigns.lookup cid = _
    rw [hcamp (record_win s cid uid price today)
      { c with spent := c.spent + price } hc1]
  · rw [h1]
    exact hfreq s
  · rw [h1, hstep]
    show (record_win (record_win s cid uid price today) cid uid price
      today).frequency_caps uid cid today = _
    rw [hfreq, hfreq]

/-- Witness for the amended C9, on the sample one-campaign state. -/
theorem handle_win_notice_double_increment_witness :
    ((handle_win_notice budgetState (some "camp-001") (some "user-1")
        (some 1) "2026-10-12").1.campaigns.lookup "camp-001")
      = some { budgetCampaign with spent := budgetCampaign.spent + 1 }
    ∧ ((handle_win_notice
          (handle_win_notice budgetState (some "camp-001") (some "user-1")
            (some 1) "2026-10-12").1
          (some "camp-001") (some "user-1") (some 1)
          "2026-10-12").1.campaigns.lookup "camp-001")
      = some { budgetCampaign with
          spent := budgetCampaign.spent + 1 + 1 } := by
  have h := handle_win_notice_double_increment budgetState "camp-001"
    "user-1" budgetCampaign 1 "2026-10-12" (by decide) (by decide) rfl
  exact ⟨h.2.2.1, h.2.2.2.1⟩

/-! ### C10: win notice for an unknown campaign id -/

/-- **C10.**  A well-formed win notice whose campaign id is absent from
`campaigns_db` still succeeds: the handler answers success, no campaign is
touched, the (user, campaign, day) frequency counter is incremented anyway,
and a fresh `CampaignStats` entry for the unknown id is created and
incremented (one impression, `spend = price`). -/
theorem handle_win_notice_unknown_campaign (s : DSPState)
    (cid uid : String) (price : ℚ) (today : String)
    (hcid : cid ≠ "") (huid : uid ≠ "")
    (hmiss : s.campaigns.lookup cid = none)
    (hstats : s.campaign_stats.lookup cid = none) :
    (handle_win_notice s (some cid) (some uid) (some price) today).2 = true
    ∧ (handle_win_notice s (some cid) (some uid) (some price)
        today).1.campaigns = s.campaigns
    ∧ (handle_win_notice s (some cid) (some uid) (some price)
        today).1.frequency_caps uid cid today
        = s.frequency_caps uid cid today + 1
    ∧ (handle_win_notice s (some cid) (some uid) (some price)
        today).1.campaign_stats.lookup cid
        = some { campaign_id := cid, impressions := 1, clicks := 0,
                 conversions := 0, spend := 0 + price, revenue := 0,
                 ctr := 0, cpc := 0 } := by
  have hstep : handle_win_notice s (some cid) (some uid) (some price) today
      = (record_win s cid uid price today, true) := by
    unfold handle_win_notice
    dsimp only []
    rw [if_pos ⟨hcid, huid⟩]
    rfl
  rw [hstep]
  refine ⟨rfl, ?_, ?_, ?_⟩
  · unfold record_win
    rw [if_neg (by rw [hmiss]; simp)]
  · show (if uid = uid ∧ cid = cid ∧ today = today then _ else _) = _
    rw [if_pos ⟨rfl, rfl, rfl⟩]
  · show (match s.campaign_stats.lookup cid with
      | some _ => updateFirst cid (incStats price) s.campaign_stats
      | none => s.campaign_stats
          ++ [(cid, incStats price (CampaignStats.init cid))]).lookup cid = _
    rw [hstats]
    exact lookup_append_of_none cid _ s.campaign_stats hstats

/-- Witness for C10: a notice for the unknown id "ghost" on an empty
store. -/
theorem handle_win_notice_unknown_campaign_witness :
    (handle_win_notice ⟨[], fun _ _ _ => 0, []⟩ (some "ghost") (some "u-1")
        (some 2) "2026-10-12").2 = true
    ∧ (handle_win_notice ⟨[], fun _ _ _ => 0, []⟩ (some "ghost") (some "u-1")
        (some 2) "2026-10-12").1.campaign_stats.lookup "ghost"
      = some { campaign_id := "ghost", impressions := 1, clicks := 0,
               conversions := 0, spend := 0 + 2, revenue := 0, ctr := 0,
               cpc := 0 } := by
  have h := handle_win_notice_unknown_campaign ⟨[], fun _ _ _ => 0, []⟩
    "ghost" "u-1" 2 "2026-10-12" (by decide) (by decide) rfl rfl
  exact ⟨h.1, h.2.2.2⟩

/-! ## Circuit breaker (`src/shared/utils.py`, class `CircuitBreaker`)

The wall clock (`time.time()`) becomes the explicit `now` argument of
`call`; the wrapped coroutine's outcome becomes the Boolean `succeeds`
(the class catches `expected_exception`, which defaults to `Exception`).
`CBState.opened` renders the Python string state `"OPEN"`. -/

inductive CBState where
  | closed
  | opened
  | halfOpen
deriving Repr, DecidableEq

structure CircuitBreaker where
  failure_threshold : Nat
  recovery_timeout : ℚ
  failure_count : Nat
  last_failure_time : Option ℚ
  state : CBState
deriving Repr, DecidableEq

/-- `CircuitBreaker.__init__`: zero failures, no failure time, CLOSED. -/
def CircuitBreaker.mkNew (thr : Nat) (tmo : ℚ) : CircuitBreaker :=
  ⟨thr, tmo, 0, none, CBState.closed⟩

/-- `CircuitBreaker._should_attempt_reset`:
`last_failure_time and time.time() - last_failure_time >= recovery_timeout`. -/
def should_attempt_reset (cb : CircuitBreaker) (now : ℚ) : Bool :=
  match cb.last_failure_time with
  | none => false
  | some t => decide (cb.recovery_timeout ≤ now - t)

/-- `CircuitBreaker._on_success`: reset the counter; HALF_OPEN closes. -/
def on_success (cb : CircuitBreaker) : CircuitBreaker :=
  { cb with
    failure_count := 0
    state := if cb.state = CBState.halfOpen then CBState.closed else cb.state }

/-- `CircuitBreaker._on_failure`: bump the counter, stamp the failure time,
open once the counter reaches the threshold. -/
def on_failure (cb : CircuitBreaker) (now : ℚ) : CircuitBreaker :=
  { cb with
    failure_count := cb.failure_count + 1
    last_failure_time := some now
    state := if cb.failure_threshold ≤ cb.failure_count + 1 then CBState.opened
             else cb.state }

/-- What one `call` returned: the fast-fail `ServiceError` with code
`CIRCUIT_BREAKER_OPEN`, the wrapped function's value, or its re-raised
exception. -/
inductive CBResult where
  | circuitOpenError
  | value
  | raised
deriving Repr, DecidableEq

structure CBCall where
  result : CBResult
  invoked : Bool
deriving Repr, DecidableEq

/-- The `try: result = await func(...)` body of `CircuitBreaker.call`. -/
def CircuitBreaker.run (cb : CircuitBreaker) (now : ℚ) (succeeds : Bool) :
    CBCall × CircuitBreaker :=
  if succeeds then (⟨CBResult.value, true⟩, on_success cb)
  else (⟨CBResult.raised, true⟩, on_failure cb now)

/-- `CircuitBreaker.call`: while OPEN, either transition to HALF_OPEN (when
the recovery timeout has elapsed) and run the probe, or fail fast without
invoking the function; otherwise run the function. -/
def CircuitBreaker.call (cb : CircuitBreaker) (now : ℚ) (succeeds : Bool) :
    CBCall × CircuitBreaker :=
  if cb.state = CBState.opened then
    if should_attempt_reset cb now then
      CircuitBreaker.run { cb with state := CBState.halfOpen } now succeeds
    else (⟨CBResult.circuitOpenError, false⟩, cb)
  else CircuitBreaker.run cb now succeeds

/-- The breaker after a list of calls, most recent event first; each event
is (time, outcome of the wrapped function). -/
def runTrace (thr : Nat) (tmo : ℚ) : List (ℚ × Bool) → CircuitBreaker
  | [] => CircuitBreaker.mkNew thr tmo
  | e :: rest => ((runTrace thr tmo rest).call e.1 e.2).2

/-- States a breaker constructed with the given parameters can actually be
in between calls. -/
def Reachable (thr : Nat) (tmo : ℚ) (cb : CircuitBreaker) : Prop :=
  ∃ trace, cb = runTrace thr tmo trace

/-- The reachability invariant: configuration is immutable, and away from
CLOSED the counter has reached the threshold and a failure time is
stamped. -/
def CBInv (thr : Nat) (tmo : ℚ) (cb : CircuitBreaker) : Prop :=
  cb.failure_threshold = thr ∧ cb.recovery_timeout = tmo ∧
    (cb.state = CBState.closed ∨
      (thr ≤ cb.failure_count ∧ ∃ t, cb.last_failure_time = some t))

theorem cbInv_call (thr : Nat) (tmo : ℚ) (cb : CircuitBreaker) (now : ℚ)
    (ok : Bool) (h : CBInv thr tmo cb) : CBInv thr tmo (cb.call now ok).2 := by
  obtain ⟨h1, h2, h3⟩ := h
  unfold CircuitBreaker.call CircuitBreaker.run
  by_cases hop : cb.state = CBState.opened
  · rw [if_pos hop]
    have hcnt : thr ≤ cb.failure_count := by
      rcases h3 with h3 | h3
      · rw [h3] at hop
        nomatch hop
      · exact h3.1
    by_cases hr : should_attempt_reset cb now = true
    · rw [if_pos hr]
      cases ok with
      | true =>
        rw [if_pos rfl]
        exact ⟨h1, h2, Or.inl (by simp [on_success])⟩
      | false =>
        rw [if_neg Bool.false_ne_true]
        refine ⟨h1, h2, Or.inr ⟨?_, now, rfl⟩⟩
        show thr ≤ cb.failure_count + 1
        exact le_trans hcnt (Nat.le_succ _)
    · rw [if_neg hr]
      exact ⟨h1, h2, h3⟩
  · rw [if_neg hop]
    cases ok with
    | true =>
      rw [if_pos rfl]
      refine ⟨h1, h2, Or.inl ?_⟩
      show (if cb.state = CBState.halfOpen then CBState.closed else cb.state)
        = CBState.closed
      by_cases hh : cb.state = CBState.halfOpen
      · rw [if_pos hh]
      · rw [if_neg hh]
        cases hst : cb.state with
        | closed => rfl
        | opened => exact absurd hst hop
        | halfOpen => exact absurd hst hh
    | false =>
      rw [if_neg Bool.false_ne_true]
      by_cases hth : cb.failure_threshold ≤ cb.failure_count + 1
      · exact ⟨h1, h2, Or.inr ⟨by rw [← h1]; exact hth, now, rfl⟩⟩
      · refine ⟨h1, h2, Or.inl ?_⟩
        show (if cb.failure_threshold ≤ cb.failure_count + 1 then CBState.opened
          else cb.state) = CBState.closed
        rw [if_neg hth]
        rcases h3 with h3 | h3
        · exact h3
        · exact absurd (le_trans (h1 ▸ h3.1) (Nat.le_succ _)) hth

theorem reachable_cbInv (thr : Nat) (tmo : ℚ) (cb : CircuitBreaker)
    (h : Reachable thr tmo cb) : CBInv thr tmo cb := by
  obtain ⟨trace, rfl⟩ := h
  induction trace with
  | nil => exact ⟨rfl, rfl, Or.inl rfl⟩
  | cons e rest ih => exact cbInv_call thr tmo _ e.1 e.2 ih

/-- A fresh breaker subjected to consecutive failing calls at the given
times. -/
def failRun (thr : Nat) (tmo : ℚ) (ts : List ℚ) : CircuitBreaker :=
  ts.foldl (fun cb t => (cb.call t false).2) (CircuitBreaker.mkNew thr tmo)

theorem failRun_aux : ∀ (ts : List ℚ) (cb : CircuitBreaker),
    cb.state = CBState.closed →
    cb.failure_count + ts.length = cb.failure_threshold →
    1 ≤ ts.length →
    (ts.foldl (fun cb t => (cb.call t false).2) cb).state = CBState.opened := by
  intro ts
  induction ts with
  | nil =>
    intro cb _ _ h3
    nomatch h3
  | cons t rest ih =>
    intro cb h1 h2 _
    rw [List.foldl_cons]
    have hstep : (cb.call t false).2 = on_failure cb t := by
      unfold CircuitBreaker.call CircuitBreaker.run
      rw [if_neg (by rw [h1]; exact fun hc => nomatch hc), if_neg Bool.false_ne_true]
    rw [hstep]
    cases rest with
    | nil =>
      rw [List.foldl_nil]
      show (if cb.failure_threshold ≤ cb.failure_count + 1 then CBState.opened
        else cb.state) = CBState.opened
      rw [if_pos]
      rw [← h2]
      simp
    | cons r rs =>
      apply ih (on_failure cb t)
      · show (if cb.failure_threshold ≤ cb.failure_count + 1 then CBState.opened
          else cb.state) = CBState.closed
        rw [if_neg, h1]
        rw [← h2]
        simp only [List.length_cons]
        omega
      · show cb.failure_count + 1 + (r :: rs).length = cb.failure_threshold
        rw [← h2]
        simp only [List.length_cons]
        omega
      · simp

/-- **C5.**  The circuit-breaker state machine:
(1) from a fresh breaker, `failure_threshold` consecutive failing calls
(at arbitrary times) leave the state OPEN;
(2) in CLOSED, a successful call resets the failure counter and stays
CLOSED;
(3) a call made while OPEN before `recovery_timeout` has elapsed since the
last failure fails fast with the circuit-open error, does not invoke the
wrapped function, and leaves the breaker untouched;
(4) once `recovery_timeout` has elapsed, the next call is invoked as a
HALF_OPEN probe and its outcome alone decides the next state — success
closes the circuit and zeroes the counter, failure re-opens it and
restamps the failure time (restarting the recovery timer). -/
theorem circuit_breaker_spec (thr : Nat) (tmo : ℚ) (hthr : 1 ≤ thr) :
    (∀ ts : List ℚ, ts.length = thr →
      (failRun thr tmo ts).state = CBState.opened)
    ∧ (∀ (cb : CircuitBreaker) (now : ℚ), cb.state = CBState.closed →
        (cb.call now true).2.failure_count = 0
          ∧ (cb.call now true).2.state = CBState.closed)
    ∧ (∀ (cb : CircuitBreaker) (now t : ℚ) (ok : Bool),
        cb.state = CBState.opened → cb.last_failure_time = some t →
        now - t < cb.recovery_timeout →
        (cb.call now ok).1.invoked = false
          ∧ (cb.call now ok).1.result = CBResult.circuitOpenError
          ∧ (cb.call now ok).2 = cb)
    ∧ (∀ (cb : CircuitBreaker) (now t : ℚ), Reachable thr tmo cb →
        cb.state = CBState.opened → cb.last_failure_time = some t →
        cb.recovery_timeout ≤ now - t →
        ∀ ok : Bool, (cb.call now ok).1.invoked = true
          ∧ (ok = true → (cb.call now ok).2.state = CBState.closed
              ∧ (cb.call now ok).2.failure_count = 0)
          ∧ (ok = false → (cb.call now ok).2.state = CBState.opened
              ∧ (cb.call now ok).2.last_failure_time = some now)) := by
  refine ⟨?_, ?_, ?_, ?_⟩
  · intro ts hlen
    exact failRun_aux ts (CircuitBreaker.mkNew thr tmo) rfl (by simp [CircuitBreaker.mkNew, hlen])
      (by omega)
  · intro cb now hcl
    unfold CircuitBreaker.call CircuitBreaker.run
    rw [if_neg (by rw [hcl]; exact fun hc => nomatch hc), if_pos rfl]
    refine ⟨rfl, ?_⟩
    show (if cb.state = CBState.halfOpen then CBState.closed else cb.state)
      = CBState.closed
    rw [if_neg (by rw [hcl]; exact fun hc => nomatch hc), hcl]
  · intro cb now t ok hop hlast hlt
    unfold CircuitBreaker.call
    rw [if_pos hop]
    rw [if_neg (show ¬ should_attempt_reset cb now = true by
      unfold should_attempt_reset
      rw [hlast]
      simpa using not_le_of_lt hlt)]
    exact ⟨rfl, rfl, rfl⟩
  · intro cb now t hreach hop hlast hle ok
    have hinv := reachable_cbInv thr tmo cb hreach
    have hcnt : cb.failure_threshold ≤ cb.failure_count := by
      rcases hinv.2.2 with h3 | h3
      · rw [h3] at hop
        nomatch hop
      · rw [hinv.1]
        exact h3.1
    unfold CircuitBreaker.call CircuitBreaker.run
    rw [if_pos hop]
    rw [if_pos (show should_attempt_reset cb now = true by
      unfold should_attempt_reset
      rw [hlast]
      simpa using hle)]
    cases ok with
    | true =>
      rw [if_pos rfl]
      exact ⟨rfl, fun _ => ⟨by simp [on_success], rfl⟩, fun hc => nomatch hc⟩
    | false =>
      rw [if_neg Bool.false_ne_true]
      refine ⟨rfl, ?_, ?_⟩
      · intro hc
        nomatch hc
      · intro _
        refine ⟨?_, rfl⟩
        show (if cb.failure_threshold ≤ cb.failure_count + 1 then CBState.opened
          else CBState.halfOpen) = CBState.opened
        rw [if_pos (le_trans hcnt (Nat.le_succ _))]

/-- A breaker with threshold 2 and recovery timeout 10 after two failures
at times 0 and 1 (most recent event listed first). -/
def probeCB : CircuitBreaker := runTrace 2 10 [(1, false), (0, false)]

/-- Witness for C5: the concrete breaker `probeCB` is OPEN; at time 5 it
fails fast; at time 20 the probe's outcome decides the state. -/
theorem circuit_breaker_spec_witness :
    (failRun 2 10 [0, 1]).state = CBState.opened
    ∧ (probeCB.call 5 false).1.result = CBResult.circuitOpenError
    ∧ (probeCB.call 5 false).1.invoked = false
    ∧ (probeCB.call 20 true).2.state = CBState.closed
    ∧ (probeCB.call 20 false).2.state = CBState.opened := by
  have h := circuit_breaker_spec 2 10 (by norm_num)
  have hreach : Reachable 2 10 probeCB := ⟨[(1, false), (0, false)], rfl⟩
  have hff := h.2.2.1 probeCB 5 1 false rfl rfl
    (show (5:ℚ) - 1 < 10 by norm_num)
  have hprobe := h.2.2.2 probeCB 20 1 hreach rfl rfl
    (show (10:ℚ) ≤ 20 - 1 by norm_num)
  exact ⟨h.1 [0, 1] rfl, hff.2.1, hff.1,
    ((hprobe true).2.1 rfl).1, ((hprobe false).2.2 rfl).1⟩

/-! ## Resilient HTTP client (`src/shared/utils.py`,
`APIClient._request_with_retry`)

The transport is passed in as `outcomes : Nat → HttpOutcome`, giving the
result of the HTTP attempt with each index (`attempt` in the Python loop).
`retry_delay`/`retry_backoff` are the client's configuration; the recorded
`delays` list holds the argument of each `asyncio.sleep` call, in order. -/

/-- The `message`/`error_code` fields read from a 4xx response's JSON body
(`error_data.get("message")`, `error_data.get("error_code")`). -/
structure ErrPayload where
  message : Option String
  error_code : Option String
deriving Repr, DecidableEq

/-- The errors `_request_with_retry` can raise or record:
`ServiceTimeoutError`, `ServiceUnavailableError`, the retryable 5xx
`SERVER_ERROR`, the terminal 4xx client error carrying the parsed peer
payload (`none` when the body was not JSON), and the catch-all
`COMMUNICATION_ERROR`. -/
inductive SvcError where
  | serviceTimeout
  | serviceUnavailable
  | serverError (code : Nat)
  | clientError (code : Nat) (payload : Option ErrPayload)
  | communicationError
deriving Repr, DecidableEq

/-- One attempt's raw outcome: `httpx.TimeoutException`,
`httpx.ConnectError`, a response with a status code (body given as the
parsed error payload when it is JSON), or any other exception. -/
inductive HttpOutcome where
  | timeout
  | connectError
  | response (code : Nat) (body : Option ErrPayload)
  | otherFailure
deriving Repr, DecidableEq

/-- How one loop iteration treats its outcome: return successfully, raise
a terminal error immediately, or record a retryable error and continue. -/
inductive AttemptStep where
  | success (code : Nat)
  | fatal (e : SvcError)
  | retryable (e : SvcError)
deriving Repr, DecidableEq

/-- The body of the `for attempt in range(max_retries + 1)` loop:
status `>= 500` raises-and-catches into a retryable `SERVER_ERROR`;
`400 <= status < 500` raises the terminal client error with the peer's
payload; timeouts and connect errors become retryable typed errors; any
other exception becomes a retryable `COMMUNICATION_ERROR`. -/
def classify : HttpOutcome → AttemptStep
  | .timeout => .retryable .serviceTimeout
  | .connectError => .retryable .serviceUnavailable
  | .response code body =>
    if 500 ≤ code then .retryable (.serverError code)
    else if 400 ≤ code then .fatal (.clientError code body)
    else .success code
  | .otherFailure => .retryable .communicationError

/-- Outcome of `_request_with_retry`: the returned value (the status code
stands in for the parsed JSON body) or the raised error, the number of
attempts actually performed, and the backoff sleeps executed. -/
structure RetryResult where
  result : Except SvcError Nat
  attempts : Nat
  delays : List ℚ
deriving Repr

/-- The retry loop from iteration `attempt` with `remaining` retries left;
`last` is `last_exception` (always the current iteration's error when the
loop ends, which is what the final `raise last_exception` surfaces). -/
def request_with_retry_go (outcomes : Nat → HttpOutcome)
    (retry_delay retry_backoff : ℚ) :
    Nat → Nat → Option SvcError → List ℚ → RetryResult
  | attempt, remaining, _last, delays =>
    match classify (outcomes attempt) with
    | .success code => ⟨.ok code, attempt + 1, delays⟩
    | .fatal e => ⟨.error e, attempt + 1, delays⟩
    | .retryable e =>
      match remaining with
      | 0 => ⟨.error e, attempt + 1, delays⟩
      | r + 1 =>
        request_with_retry_go outcomes retry_delay retry_backoff (attempt + 1) r
          (some e) (delays ++ [retry_delay * retry_backoff ^ attempt])

/-- `APIClient._request_with_retry` with `max_retries` retries. -/
def request_with_retry (max_retries : Nat) (retry_delay retry_backoff : ℚ)
    (outcomes : Nat → HttpOutcome) : RetryResult :=
  request_with_retry_go outcomes retry_delay retry_backoff 0 max_retries none []

theorem request_go_attempts_le (outcomes : Nat → HttpOutcome) (d b : ℚ) :
    ∀ (r attempt : Nat) (last : Option SvcError) (delays : List ℚ),
    (request_with_retry_go outcomes d b attempt r last delays).attempts
      ≤ attempt + r + 1 := by
  intro r
  induction r with
  | zero =>
    intro attempt last delays
    unfold request_with_retry_go
    cases classify (outcomes attempt) <;> simp
  | succ r ih =>
    intro attempt last delays
    unfold request_with_retry_go
    cases classify (outcomes attempt) with
    | success code => simp
    | fatal e => simp
    | retryable e =>
      calc (request_with_retry_go outcomes d b (attempt + 1) r (some e)
              (delays ++ [d * b ^ attempt])).attempts
          ≤ attempt + 1 + r + 1 := ih (attempt + 1) (some e) _
        _ = attempt + (r + 1) + 1 := by omega

theorem request_go_all_retryable (outcomes : Nat → HttpOutcome) (d b : ℚ) :
    ∀ (r attempt : Nat) (last : Option SvcError) (delays : List ℚ) (e : SvcError),
    (∀ i, i < r → ∃ e2, classify (outcomes (attempt + i)) = .retryable e2) →
    classify (outcomes (attempt + r)) = .retryable e →
    request_with_retry_go outcomes d b attempt r last delays
      = ⟨.error e, attempt + r + 1,
          delays ++ (List.range' attempt r).map (fun j => d * b ^ j)⟩ := by
  intro r
  induction r with
  | zero =>
    intro attempt last delays e _ hlast
    unfold request_with_retry_go
    rw [Nat.add_zero] at hlast
    rw [hlast]
    simp
  | succ r ih =>
    intro attempt last delays e hall hlast
    obtain ⟨e0, he0⟩ := hall 0 (Nat.succ_pos r)
    rw [Nat.add_zero] at he0
    unfold request_with_retry_go
    rw [he0]
    dsimp only []
    have hstep := ih (attempt + 1) (some e0) (delays ++ [d * b ^ attempt]) e
      (fun i hi => by
        have := hall (i + 1) (by omega)
        rwa [show attempt + (i + 1) = attempt + 1 + i by omega] at this)
      (by rwa [show attempt + 1 + r = attempt + (r + 1) by omega])
    rw [hstep, List.range'_succ attempt r 1]
    simp only [List.map_cons, List.append_assoc, List.singleton_append]
    congr 1
    omega

theorem request_go_fatal (outcomes : Nat → HttpOutcome) (d b : ℚ) :
    ∀ (k r attempt : Nat) (last : Option SvcError) (delays : List ℚ)
      (e : SvcError),
    (∀ i, i < k → ∃ e2, classify (outcomes (attempt + i)) = .retryable e2) →
    k ≤ r →
    classify (outcomes (attempt + k)) = .fatal e →
    (request_with_retry_go outcomes d b attempt r last delays).result = .error e
    ∧ (request_with_retry_go outcomes d b attempt r last delays).attempts
        = attempt + k + 1 := by
  intro k
  induction k with
  | zero =>
    intro r attempt last delays e _ _ hfatal
    rw [Nat.add_zero] at hfatal
    unfold request_with_retry_go
    rw [hfatal]
    cases r <;> exact ⟨rfl, rfl⟩
  | succ k ih =>
    intro r attempt last delays e hall hkr hfatal
    obtain ⟨e0, he0⟩ := hall 0 (Nat.succ_pos k)
    rw [Nat.add_zero] at he0
    obtain ⟨r2, rfl⟩ : ∃ r2, r = r2 + 1 := ⟨r - 1, by omega⟩
    unfold request_with_retry_go
    rw [he0]
    have hrec := ih r2 (attempt + 1) (some e0) (delays ++ [d * b ^ attempt]) e
      (fun i hi => by
        have := hall (i + 1) (by omega)
        rwa [show attempt + (i + 1) = attempt + 1 + i by omega] at this)
      (by omega)
      (by rwa [show attempt + 1 + k = attempt + (k + 1) by omega])
    exact ⟨hrec.1, hrec.2.trans (by omega)⟩

/-- **C6.**  Retry behaviour of `_request_with_retry`:
(1) never more than `max_retries + 1` attempts;
(2) when every attempt fails with a retryable outcome (timeout, connect
error, 5xx, or another exception), all `max_retries + 1` attempts run, a
delay of `retry_delay × retry_backoff ^ attempt` is slept before each
retry, and the last attempt's error is surfaced;
(3) a 4xx response is never retried: the first attempt that yields one
(after any retryable failures) ends the call at that attempt, surfacing
the structured client error carrying the peer's parsed payload. -/
theorem request_with_retry_spec (max_retries : Nat) (d b : ℚ)
    (outcomes : Nat → HttpOutcome) :
    ((request_with_retry max_retries d b outcomes).attempts ≤ max_retries + 1)
    ∧ (∀ e : SvcError,
        (∀ i, i < max_retries → ∃ e2, classify (outcomes i) = .retryable e2) →
        classify (outcomes max_retries) = .retryable e →
        request_with_retry max_retries d b outcomes
          = ⟨.error e, max_retries + 1,
              (List.range max_retries).map (fun j => d * b ^ j)⟩)
    ∧ (∀ (k code : Nat) (body : Option ErrPayload),
        k ≤ max_retries →
        (∀ i, i < k → ∃ e2, classify (outcomes i) = .retryable e2) →
        outcomes k = .response code body → 400 ≤ code → code < 500 →
        (request_with_retry max_retries d b outcomes).result
            = .error (.clientError code body)
        ∧ (request_with_retry max_retries d b outcomes).attempts = k + 1) := by
  refine ⟨?_, ?_, ?_⟩
  · have h := request_go_attempts_le outcomes d b max_retries 0 none []
    simpa using h
  · intro e hall hlast
    have h := request_go_all_retryable outcomes d b max_retries 0 none [] e
      (fun i hi => by simpa using hall i hi) (by simpa using hlast)
    rw [request_with_retry, h]
    rw [List.range_eq_range' max_retries]
    simp
  · intro k code body hk hall hresp h4 h5
    have hfatal : classify (outcomes (0 + k)) = .fatal (.clientError code body) := by
      rw [Nat.zero_add, hresp]
      show (if 500 ≤ code then AttemptStep.retryable (SvcError.serverError code)
        else if 400 ≤ code then AttemptStep.fatal (SvcError.clientError code body)
        else AttemptStep.success code) = _
      rw [if_neg (by omega : ¬ (500 ≤ code)), if_pos h4]
    have h := request_go_fatal outcomes d b k max_retries 0 none []
      (.clientError code body) (fun i hi => by simpa using hall i hi) hk hfatal
    exact ⟨h.1, by simpa using h.2⟩

/-- A transport that times out on the first attempt and then answers 404
with a JSON error body. -/
def flaky : Nat → HttpOutcome :=
  fun i =>
    if i = 0 then HttpOutcome.timeout
    else HttpOutcome.response 404 (some ⟨some "not found", some "CLIENT_ERROR"⟩)

/-- Witness for C6: with everything timing out, all attempts run with the
exponential-backoff delays and the timeout error surfaces; with `flaky`,
the 404 on attempt 1 stops the loop at 2 attempts with the peer's payload. -/
theorem request_with_retry_spec_witness :
    request_with_retry 2 1 2 (fun _ => HttpOutcome.timeout)
      = ⟨Except.error SvcError.serviceTimeout, 3,
          (List.range 2).map (fun j => (1:ℚ) * 2 ^ j)⟩
    ∧ (request_with_retry 3 1 2 flaky).result
        = Except.error (SvcError.clientError 404
            (some ⟨some "not found", some "CLIENT_ERROR"⟩))
    ∧ (request_with_retry 3 1 2 flaky).attempts = 2 := by
  have h1 := (request_with_retry_spec 2 1 2 (fun _ => HttpOutcome.timeout)).2.1
    SvcError.serviceTimeout (fun i _ => ⟨SvcError.serviceTimeout, rfl⟩) rfl
  have h2 := (request_with_retry_spec 3 1 2 flaky).2.2 1 404
    (some ⟨some "not found", some "CLIENT_ERROR"⟩) (by omega)
    (fun i hi => ⟨SvcError.serviceTimeout, by
      have hi0 : i = 0 := by omega
      subst hi0
      rfl⟩)
    rfl (by omega) (by omega)
  exact ⟨h1, h2.1, h2.2⟩

end AdArch
